import Mathlib

/-!
# StoreRouter (storerouter.go)

A shallow embedding of the store router of `desync`: a router holds an ordered
list of stores and answers `GetChunk`, `HasChunk`, `String` and `Close` by
scanning its members in list order.

Member stores are external and may be stateful, so every member method is a
state transformer over a world `σ`; the router threads that world through its
loops and records every member call it makes.
-/

set_option autoImplicit false
set_option linter.dupNamespace false

/-- Modelled from the spec: the declaration of `ChunkID` is not in the source
file; the spec describes an opaque fixed-form fingerprint with exact equality.
It is represented by its bytes. -/
structure ChunkID where
  bytes : List Nat
deriving DecidableEq, Repr

/-- Modelled from the spec: the declaration of `Chunk` is not in the source
file; the spec describes an immutable byte payload the router only forwards. -/
structure Chunk where
  data : List Nat
deriving DecidableEq, Repr

/-- Dynamic values of Go's `error` interface, as far as the router can tell
them apart. `ChunkMissing` is the struct `ChunkMissing{ID}`; `withMessage` and
`withStack` are the two layers of the value built by `errors.Wrap`: the
message layer around the wrapped error, and the stack layer around the message
layer (the recorded stack itself is not represented); `other` is any other
concrete error, given by the text of its `Error()`. A nil `error` is
`none : Option Error`. -/
inductive Error where
  | ChunkMissing (ID : ChunkID)
  | other (text : String)
  | withMessage (cause : Error) (msg : String)
  | withStack (err : Error)
deriving DecidableEq, Repr

/-- The type switch `case ChunkMissing` of `GetChunk`: true exactly for a
non-nil error whose dynamic type is `ChunkMissing`. -/
def isChunkMissing : Option Error → Bool
  | some (Error.ChunkMissing _) => true
  | _ => false

/-- The method `Cause()` of an error: the wrapped error of a `withMessage`,
the error under the stack of a `withStack`, nothing for the other errors,
which have no such method. -/
def Error.Cause : Error → Option Error
  | Error.withMessage cause _ => some cause
  | Error.withStack err => some err
  | _ => none

/-- The method `Error()`: the text of an error. The text of a `ChunkMissing`
is rendered by `missingText`, whose definition is not in the source file. -/
def Error.Error (missingText : ChunkID → String) : Error → String
  | Error.ChunkMissing ID => missingText ID
  | Error.other text => text
  | Error.withMessage cause msg => msg ++ ": " ++ Error.Error missingText cause
  | Error.withStack err => Error.Error missingText err

/-- The function `errors.Wrap` of `github.com/pkg/errors`: nil for a nil error,
otherwise the error put in a message layer, itself put in a stack layer. -/
def errors.Wrap : Option Error → String → Option Error
  | none, _ => none
  | some err, message => some (Error.withStack (Error.withMessage err message))

/-- The function `strings.Join` of Go's standard library. -/
def strings.Join : List String → String → String
  | [], _ => ""
  | [a], _ => a
  | a :: rest, sep => rest.foldl (fun b s => b ++ sep ++ s) a

/-- The `Store` interface: the four methods the router calls on a member.
`GetChunk`, `HasChunk` and `Close` may read and change the world `σ`; the
descriptor `String` is a fixed text. -/
structure Store (σ : Type) where
  GetChunk : ChunkID → σ → (Option Chunk × Option Error) × σ
  HasChunk : ChunkID → σ → Bool × σ
  Close : σ → Option Error × σ
  String : String

/-- A call made by the router on one of its members. -/
inductive Call (σ : Type) where
  | getChunk (s : Store σ) (id : ChunkID)
  | hasChunk (s : Store σ) (id : ChunkID)
  | close (s : Store σ)

/-- The outcome of running a router method: what it returns, the world it
leaves, and the member calls it made, in the order they were made. -/
structure Run (σ α : Type) where
  result : α
  world : σ
  calls : List (Call σ)

/-- The struct `StoreRouter`. -/
structure StoreRouter (σ : Type) where
  Stores : List (Store σ)

/-- The constructor `NewStoreRouter`: appends each argument to an empty list. -/
def NewStoreRouter {σ : Type} (stores : List (Store σ)) : StoreRouter σ :=
  ⟨stores.foldl (fun l s => l ++ [s]) []⟩

/-- The loop of `StoreRouter.GetChunk` over the stores still to be queried. -/
def getChunkLoop {σ : Type} (id : ChunkID) :
    List (Store σ) → σ → Run σ (Option Chunk × Option Error)
  | [], w => ⟨(none, some (Error.ChunkMissing id)), w, []⟩
  | s :: rest, w =>
    match s.GetChunk id w with
    | ((chunk, none), w1) => ⟨(chunk, none), w1, [Call.getChunk s id]⟩
    | ((_, some (Error.ChunkMissing _)), w1) =>
      let r := getChunkLoop id rest w1
      ⟨r.result, r.world, Call.getChunk s id :: r.calls⟩
    | ((_, some err), w1) =>
      ⟨(none, errors.Wrap (some err) s.String), w1, [Call.getChunk s id]⟩

/-- The method `StoreRouter.GetChunk`. -/
def StoreRouter.GetChunk {σ : Type} (r : StoreRouter σ) (id : ChunkID) (w : σ) :
    Run σ (Option Chunk × Option Error) :=
  getChunkLoop id r.Stores w

/-- The loop of `StoreRouter.HasChunk` over the stores still to be queried. -/
def hasChunkLoop {σ : Type} (id : ChunkID) : List (Store σ) → σ → Run σ Bool
  | [], w => ⟨false, w, []⟩
  | s :: rest, w =>
    match s.HasChunk id w with
    | (true, w1) => ⟨true, w1, [Call.hasChunk s id]⟩
    | (false, w1) =>
      let r := hasChunkLoop id rest w1
      ⟨r.result, r.world, Call.hasChunk s id :: r.calls⟩

/-- The method `StoreRouter.HasChunk`. -/
def StoreRouter.HasChunk {σ : Type} (r : StoreRouter σ) (id : ChunkID) (w : σ) :
    Run σ Bool :=
  hasChunkLoop id r.Stores w

/-- The method `StoreRouter.String`: collects the descriptors in a slice and
joins them with a comma. -/
def StoreRouter.String {σ : Type} (r : StoreRouter σ) : String :=
  strings.Join (r.Stores.foldl (fun a s => a ++ [s.String]) []) ","

/-- The loop of `StoreRouter.Close`; `sErr` is the first error seen so far. -/
def closeLoop {σ : Type} : List (Store σ) → Option Error → σ → Run σ (Option Error)
  | [], sErr, w => ⟨sErr, w, []⟩
  | s :: rest, sErr, w =>
    match s.Close w with
    | (some err, w1) =>
      let r := closeLoop rest (if sErr = none then some err else sErr) w1
      ⟨r.result, r.world, Call.close s :: r.calls⟩
    | (none, w1) =>
      let r := closeLoop rest sErr w1
      ⟨r.result, r.world, Call.close s :: r.calls⟩

/-- The method `StoreRouter.Close`. -/
def StoreRouter.Close {σ : Type} (r : StoreRouter σ) (w : σ) : Run σ (Option Error) :=
  closeLoop r.Stores none w

/-- A router used as a member of another router: `StoreRouter` has the four
methods of the `Store` interface, and each one is the method of the router. -/
def StoreRouter.toStore {σ : Type} (r : StoreRouter σ) : Store σ where
  GetChunk := fun id w => ((r.GetChunk id w).result, (r.GetChunk id w).world)
  HasChunk := fun id w => ((r.HasChunk id w).result, (r.HasChunk id w).world)
  Close := fun w => ((r.Close w).result, (r.Close w).world)
  String := r.String

/-- The function `errors.Cause` of `github.com/pkg/errors`: follows `Cause()`
down to the first error that has none. -/
def errors.Cause : Error → Error
  | Error.withMessage cause _ => errors.Cause cause
  | Error.withStack err => errors.Cause err
  | e => e

/-- The answers of the members of a list to one method `f`, when every member is
called once in list order, each on the world left by the one before. -/
def responses {σ α : Type} (f : Store σ → σ → α × σ) : List (Store σ) → σ → List α
  | [], _ => []
  | s :: rest, w => (f s w).1 :: responses f rest (f s w).2

/-- The world left when every member of a list is called once with the method
`f` in list order, each on the world left by the one before. -/
def worldAfter {σ α : Type} (f : Store σ → σ → α × σ) : List (Store σ) → σ → σ
  | [], w => w
  | s :: rest, w => worldAfter f rest (f s w).2

/-- The answers the members give to `GetChunk id`, called in list order. -/
def getChunkResponses {σ : Type} (id : ChunkID) (stores : List (Store σ)) (w : σ) :
    List (Option Chunk × Option Error) :=
  responses (fun s => s.GetChunk id) stores w

/-- The answers the members give to `HasChunk id`, called in list order. -/
def hasChunkResponses {σ : Type} (id : ChunkID) (stores : List (Store σ)) (w : σ) :
    List Bool :=
  responses (fun s => s.HasChunk id) stores w

/-- The answers the members give to `Close`, called in list order. -/
def closeResponses {σ : Type} (stores : List (Store σ)) (w : σ) : List (Option Error) :=
  responses (fun s => s.Close) stores w

/-! ## Stores used in the examples -/

/-- A store without any chunk: `GetChunk` answers `ChunkMissing` for the id
it was asked. -/
def emptyStore (name : String) : Store Nat where
  GetChunk := fun id w => ((none, some (Error.ChunkMissing id)), w + 1)
  HasChunk := fun _ w => (false, w + 1)
  Close := fun w => (none, w + 1)
  String := name

/-- A store holding one chunk under one id. -/
def singleStore (name : String) (key : ChunkID) (c : Chunk) : Store Nat where
  GetChunk := fun id w =>
    if id = key then ((some c, none), w + 1) else ((none, some (Error.ChunkMissing id)), w + 1)
  HasChunk := fun id w => (decide (id = key), w + 1)
  Close := fun w => (none, w + 1)
  String := name

/-- A store whose `GetChunk` and `Close` fail with the error `e`. -/
def brokenStore (name : String) (e : Error) : Store Nat where
  GetChunk := fun _ w => ((none, some e), w + 1)
  HasChunk := fun _ w => (false, w + 1)
  Close := fun w => (some e, w + 1)
  String := name

/-- A store that answers `ChunkMissing` with an id of its own. -/
def strayStore (name : String) (other : ChunkID) : Store Nat where
  GetChunk := fun _ w => ((none, some (Error.ChunkMissing other)), w + 1)
  HasChunk := fun _ w => (false, w + 1)
  Close := fun w => (none, w + 1)
  String := name

/-- A store that answers `ChunkMissing` while the world is `0` and holds the
chunk `c` under every id afterwards. -/
def lateStore (name : String) (c : Chunk) : Store Nat where
  GetChunk := fun id w =>
    if w = 0 then ((none, some (Error.ChunkMissing id)), w + 1) else ((some c, none), w + 1)
  HasChunk := fun _ w => (decide (w ≠ 0), w + 1)
  Close := fun w => (none, w + 1)
  String := name

/-- A store over a world that lists the names of the stores closed so far:
`Close` adds the name of the store and answers `closeErr`. -/
def namedStore (name : String) (closeErr : Option Error) : Store (List String) where
  GetChunk := fun id w => ((none, some (Error.ChunkMissing id)), w)
  HasChunk := fun _ w => (false, w)
  Close := fun w => (closeErr, w ++ [name])
  String := name

/-- The chunk id used in the examples. -/
def idX : ChunkID := ⟨[1, 2, 3]⟩

/-- A second chunk id. -/
def idY : ChunkID := ⟨[9]⟩

/-- The chunk stored under `idX` in the examples. -/
def chunkX : Chunk := ⟨[42]⟩

/-- A network failure. -/
def netErr : Error := Error.other "connection refused"

/-- The router over an empty store, a store holding `chunkX` and a broken store. -/
def routerEmptyHasBroken : StoreRouter Nat :=
  ⟨[emptyStore "a", singleStore "b" idX chunkX, brokenStore "c" netErr]⟩

/-- The router over an empty store, a broken store and a store holding `chunkX`. -/
def routerEmptyBrokenHas : StoreRouter Nat :=
  ⟨[emptyStore "a", brokenStore "b" netErr, singleStore "c" idX chunkX]⟩

/-- The router over an empty store and a store answering `ChunkMissing` for `idY`. -/
def routerEmptyStray : StoreRouter Nat :=
  ⟨[emptyStore "a", strayStore "b" idY]⟩

/-- The router over an empty store and two broken stores with different errors. -/
def routerEmptyBrokenBroken : StoreRouter Nat :=
  ⟨[emptyStore "a", brokenStore "b" netErr, brokenStore "c" (Error.other "disk full")]⟩

/-- The router over the same late store, listed twice. -/
def routerLateTwice : StoreRouter Nat :=
  ⟨[lateStore "l" chunkX, lateStore "l" chunkX]⟩

/-- The router over three named stores, the second of which fails to close. -/
def routerNamed : StoreRouter (List String) :=
  ⟨[namedStore "A" none, namedStore "B" (some netErr), namedStore "C" none]⟩

/-- The router over a broken store followed by a store holding `chunkX`. -/
def routerBrokenHas : StoreRouter Nat :=
  ⟨[brokenStore "a" netErr, singleStore "b" idX chunkX]⟩

/-- The router over an empty store followed by a store holding `chunkX`. -/
def routerEmptyHas : StoreRouter Nat :=
  ⟨[emptyStore "a", singleStore "b" idX chunkX]⟩

/-! ## Unfolding the loops -/

theorem getChunkLoop_nil {σ : Type} (id : ChunkID) (w : σ) :
    getChunkLoop id ([] : List (Store σ)) w = ⟨(none, some (Error.ChunkMissing id)), w, []⟩ :=
  rfl

theorem getChunkLoop_cons_success {σ : Type} (id : ChunkID) (s : Store σ)
    (rest : List (Store σ)) (w : σ) (h : (s.GetChunk id w).1.2 = none) :
    getChunkLoop id (s :: rest) w
      = ⟨((s.GetChunk id w).1.1, none), (s.GetChunk id w).2, [Call.getChunk s id]⟩ := by
  rcases hs : s.GetChunk id w with ⟨⟨chunk, err⟩, w1⟩
  rw [hs] at h
  simp only at h
  subst h
  simp [getChunkLoop, hs]

theorem getChunkLoop_cons_missing {σ : Type} (id : ChunkID) (s : Store σ)
    (rest : List (Store σ)) (w : σ) (h : isChunkMissing (s.GetChunk id w).1.2 = true) :
    getChunkLoop id (s :: rest) w
      = ⟨(getChunkLoop id rest (s.GetChunk id w).2).result,
          (getChunkLoop id rest (s.GetChunk id w).2).world,
          Call.getChunk s id :: (getChunkLoop id rest (s.GetChunk id w).2).calls⟩ := by
  rcases hs : s.GetChunk id w with ⟨⟨chunk, err⟩, w1⟩
  rw [hs] at h
  cases err with
  | none => simp [isChunkMissing] at h
  | some e =>
    cases e with
    | ChunkMissing ID => simp [getChunkLoop, hs]
    | other text => simp [isChunkMissing] at h
    | withMessage cause msg => simp [isChunkMissing] at h
    | withStack inner => simp [isChunkMissing] at h

theorem getChunkLoop_cons_failure {σ : Type} (id : ChunkID) (s : Store σ)
    (rest : List (Store σ)) (w : σ) (err : Error) (h : (s.GetChunk id w).1.2 = some err)
    (hne : isChunkMissing (some err) = false) :
    getChunkLoop id (s :: rest) w
      = ⟨(none, some (Error.withStack (Error.withMessage err s.String))), (s.GetChunk id w).2,
          [Call.getChunk s id]⟩ := by
  rcases hs : s.GetChunk id w with ⟨⟨chunk, e⟩, w1⟩
  rw [hs] at h
  simp only at h
  subst h
  cases err with
  | ChunkMissing ID => simp [isChunkMissing] at hne
  | other text => simp [getChunkLoop, hs, errors.Wrap]
  | withMessage cause msg => simp [getChunkLoop, hs, errors.Wrap]
  | withStack inner => simp [getChunkLoop, hs, errors.Wrap]

theorem getChunkResponses_nil {σ : Type} (id : ChunkID) (w : σ) :
    getChunkResponses id ([] : List (Store σ)) w = [] :=
  rfl

theorem getChunkResponses_cons {σ : Type} (id : ChunkID) (s : Store σ)
    (rest : List (Store σ)) (w : σ) :
    getChunkResponses id (s :: rest) w
      = (s.GetChunk id w).1 :: getChunkResponses id rest (s.GetChunk id w).2 :=
  rfl

theorem responses_length {σ α : Type} (f : Store σ → σ → α × σ) (stores : List (Store σ))
    (w : σ) : (responses f stores w).length = stores.length := by
  induction stores generalizing w with
  | nil => rfl
  | cons s rest ih => simp [responses, ih]

/-- While the members before position `k` answer `ChunkMissing`, the loop of
`GetChunk` answers what it answers from position `k` on. -/
theorem getChunkLoop_result_of_prefix_missing {σ : Type} (id : ChunkID)
    (stores : List (Store σ)) (w : σ) (k : Nat) (a : Option Chunk × Option Error)
    (hbefore : ∀ i, i < k →
      ∃ b, (getChunkResponses id stores w)[i]? = some b ∧ isChunkMissing b.2 = true)
    (hk : (getChunkResponses id stores w)[k]? = some a) :
    ∃ s rest w1, stores.drop k = s :: rest ∧ (s.GetChunk id w1).1 = a ∧
      (getChunkLoop id stores w).result = (getChunkLoop id (s :: rest) w1).result := by
  induction stores generalizing w k with
  | nil => simp [getChunkResponses_nil] at hk
  | cons s rest ih =>
    cases k with
    | zero =>
      refine ⟨s, rest, w, rfl, ?_, rfl⟩
      simpa [getChunkResponses_cons] using hk
    | succ n =>
      have h0 : isChunkMissing (s.GetChunk id w).1.2 = true := by
        obtain ⟨b, hb, hm⟩ := hbefore 0 (Nat.succ_pos n)
        simp [getChunkResponses_cons] at hb
        rw [hb]
        exact hm
      have hrest : ∀ i, i < n → ∃ b,
          (getChunkResponses id rest (s.GetChunk id w).2)[i]? = some b ∧
            isChunkMissing b.2 = true := by
        intro i hi
        obtain ⟨b, hb, hm⟩ := hbefore (i + 1) (Nat.succ_lt_succ hi)
        exact ⟨b, by simpa [getChunkResponses_cons] using hb, hm⟩
      have hk1 : (getChunkResponses id rest (s.GetChunk id w).2)[n]? = some a := by
        simpa [getChunkResponses_cons] using hk
      obtain ⟨t, tl, w1, hdrop, ht, hres⟩ := ih (s.GetChunk id w).2 n hrest hk1
      refine ⟨t, tl, w1, by simpa using hdrop, ht, ?_⟩
      rw [getChunkLoop_cons_missing id s rest w h0]
      exact hres

/-- An error without a `Cause()` is its own underlying cause. -/
theorem errors_Cause_of_no_Cause (err : Error) (h : err.Cause = none) :
    errors.Cause err = err := by
  cases err with
  | ChunkMissing ID => rfl
  | other text => rfl
  | withMessage cause msg => simp [Error.Cause] at h
  | withStack inner => simp [Error.Cause] at h

/-- The three ways a member can answer `GetChunk`: a nil error, a
`ChunkMissing`, or another error. -/
theorem getChunk_answer_cases (e : Option Error) :
    e = none ∨ isChunkMissing e = true ∨ ∃ err, e = some err ∧ isChunkMissing (some err) = false := by
  cases e with
  | none => exact Or.inl rfl
  | some err =>
    cases err with
    | ChunkMissing ID => exact Or.inr (Or.inl rfl)
    | other text => exact Or.inr (Or.inr ⟨_, rfl, rfl⟩)
    | withMessage cause msg => exact Or.inr (Or.inr ⟨_, rfl, rfl⟩)
    | withStack inner => exact Or.inr (Or.inr ⟨_, rfl, rfl⟩)

theorem getChunkLoop_all_missing {σ : Type} (id : ChunkID) (stores : List (Store σ)) (w : σ)
    (h : ∀ a ∈ getChunkResponses id stores w, isChunkMissing a.2 = true) :
    (getChunkLoop id stores w).result = (none, some (Error.ChunkMissing id)) := by
  induction stores generalizing w with
  | nil => rfl
  | cons s rest ih =>
    rw [getChunkResponses_cons] at h
    have h0 : isChunkMissing (s.GetChunk id w).1.2 = true := h _ (List.mem_cons_self _ _)
    rw [getChunkLoop_cons_missing id s rest w h0]
    exact ih _ (fun a ha => h a (List.mem_cons_of_mem _ ha))

theorem getChunkLoop_missing_iff {σ : Type} (id : ChunkID) (stores : List (Store σ)) (w : σ) :
    isChunkMissing (getChunkLoop id stores w).result.2 = true ↔
      ∀ a ∈ getChunkResponses id stores w, isChunkMissing a.2 = true := by
  induction stores generalizing w with
  | nil => simp [getChunkLoop_nil, getChunkResponses_nil, isChunkMissing]
  | cons s rest ih =>
    rw [getChunkResponses_cons]
    rcases getChunk_answer_cases (s.GetChunk id w).1.2 with h | h | ⟨err, h, hne⟩
    · rw [getChunkLoop_cons_success id s rest w h]
      simp [isChunkMissing, h]
    · rw [getChunkLoop_cons_missing id s rest w h]
      simp [ih, h]
    · rw [getChunkLoop_cons_failure id s rest w err h hne]
      constructor
      · intro hh
        simp [isChunkMissing] at hh
      · intro hall
        have h0 := hall _ (List.mem_cons_self _ _)
        rw [h, hne] at h0
        exact absurd h0 (by decide)

theorem getChunkLoop_calls {σ : Type} (id : ChunkID) (stores : List (Store σ)) (w : σ) :
    (getChunkLoop id stores w).calls
      = (stores.take (List.findIdx (fun a => !isChunkMissing a.2)
          (getChunkResponses id stores w) + 1)).map (fun s => Call.getChunk s id) := by
  induction stores generalizing w with
  | nil => rfl
  | cons s rest ih =>
    rw [getChunkResponses_cons, List.findIdx_cons]
    rcases getChunk_answer_cases (s.GetChunk id w).1.2 with h | h | ⟨err, h, hne⟩
    · rw [getChunkLoop_cons_success id s rest w h]
      simp [isChunkMissing, h]
    · rw [getChunkLoop_cons_missing id s rest w h]
      simp [ih, h]
    · rw [getChunkLoop_cons_failure id s rest w err h hne]
      simp [h, hne]

/-! ## GetChunk -/

/-- C1: when the member at position `k` answers a chunk with a nil error and
every member before it answers `ChunkMissing`, `StoreRouter.GetChunk` returns
that chunk with a nil error, whatever the members after `k` answer. -/
theorem StoreRouter.GetChunk_first_success {σ : Type} (r : StoreRouter σ) (id : ChunkID)
    (w : σ) (k : Nat) (chunk : Option Chunk)
    (hbefore : ∀ i, i < k →
      ∃ b, (getChunkResponses id r.Stores w)[i]? = some b ∧ isChunkMissing b.2 = true)
    (hk : (getChunkResponses id r.Stores w)[k]? = some (chunk, none)) :
    (r.GetChunk id w).result = (chunk, none) := by
  obtain ⟨s, rest, w1, _, hs, hres⟩ :=
    getChunkLoop_result_of_prefix_missing id r.Stores w k (chunk, none) hbefore hk
  have h2 : (s.GetChunk id w1).1.2 = none := by rw [hs]
  unfold StoreRouter.GetChunk
  rw [hres, getChunkLoop_cons_success id s rest w1 h2, hs]

/-- C2: when the member `s` at position `j` answers an error that is neither
nil nor a `ChunkMissing` and every member before it answers `ChunkMissing`,
`StoreRouter.GetChunk` returns no chunk and the error of `s` wrapped by
`errors.Wrap` with the descriptor of `s`. The returned error is the stack
layer around the message layer whose cause is the error of `s`: `Cause()`
gives the message layer, `Cause()` of that gives the error of `s`, and
`errors.Cause` gives what it gives for the error of `s`, which is that error
itself when it has no `Cause()`. Its text is the descriptor, `": "` and the
text of the error of `s`. -/
theorem StoreRouter.GetChunk_first_failure {σ : Type} (r : StoreRouter σ) (id : ChunkID)
    (w : σ) (j : Nat) (s : Store σ) (chunk : Option Chunk) (err : Error)
    (hbefore : ∀ i, i < j →
      ∃ b, (getChunkResponses id r.Stores w)[i]? = some b ∧ isChunkMissing b.2 = true)
    (hs : r.Stores[j]? = some s)
    (hj : (getChunkResponses id r.Stores w)[j]? = some (chunk, some err))
    (hne : isChunkMissing (some err) = false) :
    ∃ e, (r.GetChunk id w).result = (none, some e) ∧
      some e = errors.Wrap (some err) s.String ∧
      e.Cause = some (Error.withMessage err s.String) ∧
      (Error.withMessage err s.String).Cause = some err ∧
      errors.Cause e = errors.Cause err ∧
      (err.Cause = none → errors.Cause e = err) ∧
      ∀ missingText, e.Error missingText = s.String ++ ": " ++ err.Error missingText := by
  obtain ⟨t, rest, w1, hdrop, ht, hres⟩ :=
    getChunkLoop_result_of_prefix_missing id r.Stores w j (chunk, some err) hbefore hj
  have hts : t = s := by
    have h1 : (r.Stores.drop j)[0]? = some t := by rw [hdrop]; simp
    rw [List.getElem?_drop] at h1
    simp only [Nat.add_zero] at h1
    rw [hs] at h1
    exact (Option.some.inj h1).symm
  subst hts
  have h2 : (t.GetChunk id w1).1.2 = some err := by rw [ht]
  refine ⟨Error.withStack (Error.withMessage err t.String), ?_, rfl, rfl, rfl, rfl,
    fun hc => errors_Cause_of_no_Cause err hc, fun _ => rfl⟩
  unfold StoreRouter.GetChunk
  rw [hres, getChunkLoop_cons_failure id t rest w1 err h2 hne]

/-- C3: when every member answers `ChunkMissing`, `StoreRouter.GetChunk`
returns no chunk and `ChunkMissing` with the id asked of the router, whatever
ids the answers of the members carry. -/
theorem StoreRouter.GetChunk_all_missing {σ : Type} (r : StoreRouter σ) (id : ChunkID)
    (w : σ) (h : ∀ a ∈ getChunkResponses id r.Stores w, isChunkMissing a.2 = true) :
    (r.GetChunk id w).result = (none, some (Error.ChunkMissing id)) :=
  getChunkLoop_all_missing id r.Stores w h

/-- C4: the member calls made by `StoreRouter.GetChunk` are `GetChunk` calls
with the requested id on the stores up to and including the first one whose
answer is not `ChunkMissing` (on all of them when there is none), one call
per store and in list order. -/
theorem StoreRouter.GetChunk_calls {σ : Type} (r : StoreRouter σ) (id : ChunkID) (w : σ) :
    (r.GetChunk id w).calls
      = (r.Stores.take (List.findIdx (fun a => !isChunkMissing a.2)
          (getChunkResponses id r.Stores w) + 1)).map (fun s => Call.getChunk s id) :=
  getChunkLoop_calls id r.Stores w

/-- C10: the error returned by `StoreRouter.GetChunk` is a `ChunkMissing`
exactly when every member answered `ChunkMissing`. -/
theorem StoreRouter.GetChunk_missing_iff {σ : Type} (r : StoreRouter σ) (id : ChunkID)
    (w : σ) :
    isChunkMissing (r.GetChunk id w).result.2 = true ↔
      ∀ a ∈ getChunkResponses id r.Stores w, isChunkMissing a.2 = true :=
  getChunkLoop_missing_iff id r.Stores w

/-! ## HasChunk -/

theorem hasChunkResponses_cons {σ : Type} (id : ChunkID) (s : Store σ)
    (rest : List (Store σ)) (w : σ) :
    hasChunkResponses id (s :: rest) w
      = (s.HasChunk id w).1 :: hasChunkResponses id rest (s.HasChunk id w).2 :=
  rfl

theorem hasChunkLoop_cons_true {σ : Type} (id : ChunkID) (s : Store σ)
    (rest : List (Store σ)) (w : σ) (h : (s.HasChunk id w).1 = true) :
    hasChunkLoop id (s :: rest) w = ⟨true, (s.HasChunk id w).2, [Call.hasChunk s id]⟩ := by
  rcases hs : s.HasChunk id w with ⟨b, w1⟩
  rw [hs] at h
  simp only at h
  subst h
  simp [hasChunkLoop, hs]

theorem hasChunkLoop_cons_false {σ : Type} (id : ChunkID) (s : Store σ)
    (rest : List (Store σ)) (w : σ) (h : (s.HasChunk id w).1 = false) :
    hasChunkLoop id (s :: rest) w
      = ⟨(hasChunkLoop id rest (s.HasChunk id w).2).result,
          (hasChunkLoop id rest (s.HasChunk id w).2).world,
          Call.hasChunk s id :: (hasChunkLoop id rest (s.HasChunk id w).2).calls⟩ := by
  rcases hs : s.HasChunk id w with ⟨b, w1⟩
  rw [hs] at h
  simp only at h
  subst h
  simp [hasChunkLoop, hs]

theorem hasChunkLoop_true_iff {σ : Type} (id : ChunkID) (stores : List (Store σ)) (w : σ) :
    (hasChunkLoop id stores w).result = true ↔ true ∈ hasChunkResponses id stores w := by
  induction stores generalizing w with
  | nil => simp [hasChunkLoop, hasChunkResponses, responses]
  | cons s rest ih =>
    rw [hasChunkResponses_cons]
    cases h : (s.HasChunk id w).1 with
    | true => simp [hasChunkLoop_cons_true id s rest w h]
    | false => simp [hasChunkLoop_cons_false id s rest w h, ih]

theorem hasChunkLoop_calls {σ : Type} (id : ChunkID) (stores : List (Store σ)) (w : σ) :
    (hasChunkLoop id stores w).calls
      = (stores.take (List.findIdx (fun b => b) (hasChunkResponses id stores w) + 1)).map
          (fun s => Call.hasChunk s id) := by
  induction stores generalizing w with
  | nil => rfl
  | cons s rest ih =>
    rw [hasChunkResponses_cons, List.findIdx_cons]
    cases h : (s.HasChunk id w).1 with
    | true => simp [hasChunkLoop_cons_true id s rest w h]
    | false => simp [hasChunkLoop_cons_false id s rest w h, ih]

/-- C5: `StoreRouter.HasChunk` returns true exactly when some member answers
true to `HasChunk`, and false exactly when every member answers false. -/
theorem StoreRouter.HasChunk_iff {σ : Type} (r : StoreRouter σ) (id : ChunkID) (w : σ) :
    ((r.HasChunk id w).result = true ↔ ∃ b ∈ hasChunkResponses id r.Stores w, b = true) ∧
    ((r.HasChunk id w).result = false ↔ ∀ b ∈ hasChunkResponses id r.Stores w, b = false) := by
  have h := hasChunkLoop_true_iff id r.Stores w
  unfold StoreRouter.HasChunk
  constructor
  · rw [h]
    simp
  · rw [← Bool.not_eq_true, h]
    constructor
    · intro hn b hb
      cases b with
      | true => exact absurd hb hn
      | false => rfl
    · intro hall hmem
      exact absurd (hall true hmem) (by decide)

/-- C9: the member calls made by `StoreRouter.HasChunk` are `HasChunk` calls
with the requested id on the stores up to and including the first one that
answers true (on all of them when none does), one call per store and in list
order. -/
theorem StoreRouter.HasChunk_calls {σ : Type} (r : StoreRouter σ) (id : ChunkID) (w : σ) :
    (r.HasChunk id w).calls
      = (r.Stores.take (List.findIdx (fun b => b)
          (hasChunkResponses id r.Stores w) + 1)).map (fun s => Call.hasChunk s id) :=
  hasChunkLoop_calls id r.Stores w

/-! ## Close -/

theorem closeResponses_cons {σ : Type} (s : Store σ) (rest : List (Store σ)) (w : σ) :
    closeResponses (s :: rest) w = (s.Close w).1 :: closeResponses rest (s.Close w).2 :=
  rfl

theorem closeLoop_cons_failed {σ : Type} (s : Store σ) (rest : List (Store σ))
    (sErr : Option Error) (w : σ) (err : Error) (h : (s.Close w).1 = some err) :
    closeLoop (s :: rest) sErr w
      = ⟨(closeLoop rest (if sErr = none then some err else sErr) (s.Close w).2).result,
          (closeLoop rest (if sErr = none then some err else sErr) (s.Close w).2).world,
          Call.close s ::
            (closeLoop rest (if sErr = none then some err else sErr) (s.Close w).2).calls⟩ := by
  rcases hs : s.Close w with ⟨e, w1⟩
  rw [hs] at h
  simp only at h
  subst h
  simp [closeLoop, hs]

theorem closeLoop_cons_closed {σ : Type} (s : Store σ) (rest : List (Store σ))
    (sErr : Option Error) (w : σ) (h : (s.Close w).1 = none) :
    closeLoop (s :: rest) sErr w
      = ⟨(closeLoop rest sErr (s.Close w).2).result,
          (closeLoop rest sErr (s.Close w).2).world,
          Call.close s :: (closeLoop rest sErr (s.Close w).2).calls⟩ := by
  rcases hs : s.Close w with ⟨e, w1⟩
  rw [hs] at h
  simp only at h
  subst h
  simp [closeLoop, hs]

theorem closeLoop_calls {σ : Type} (stores : List (Store σ)) (sErr : Option Error) (w : σ) :
    (closeLoop stores sErr w).calls = stores.map Call.close := by
  induction stores generalizing sErr w with
  | nil => rfl
  | cons s rest ih =>
    cases h : (s.Close w).1 with
    | none => simp [closeLoop_cons_closed s rest sErr w h, ih]
    | some err => simp [closeLoop_cons_failed s rest sErr w err h, ih]

/-- Once an error is recorded, `Close` returns it. -/
theorem closeLoop_recorded {σ : Type} (stores : List (Store σ)) (e : Error) (w : σ) :
    (closeLoop stores (some e) w).result = some e := by
  induction stores generalizing w with
  | nil => rfl
  | cons s rest ih =>
    cases h : (s.Close w).1 with
    | none => simp [closeLoop_cons_closed s rest (some e) w h, ih]
    | some err => simp [closeLoop_cons_failed s rest (some e) w err h, ih]

theorem closeLoop_nil_iff {σ : Type} (stores : List (Store σ)) (w : σ) :
    (closeLoop stores none w).result = none ↔ ∀ e ∈ closeResponses stores w, e = none := by
  induction stores generalizing w with
  | nil => simp [closeLoop, closeResponses, responses]
  | cons s rest ih =>
    rw [closeResponses_cons]
    cases h : (s.Close w).1 with
    | none => simp [closeLoop_cons_closed s rest none w h, ih]
    | some err => simp [closeLoop_cons_failed s rest none w err h, closeLoop_recorded]

theorem closeLoop_first_failure {σ : Type} (stores : List (Store σ)) (w : σ) (k : Nat)
    (err : Error) (hk : (closeResponses stores w)[k]? = some (some err))
    (hbefore : ∀ i, i < k → (closeResponses stores w)[i]? = some none) :
    (closeLoop stores none w).result = some err := by
  induction stores generalizing w k with
  | nil => simp [closeResponses, responses] at hk
  | cons s rest ih =>
    rw [closeResponses_cons] at hk
    cases k with
    | zero =>
      have h : (s.Close w).1 = some err := by simpa using hk
      simp [closeLoop_cons_failed s rest none w err h, closeLoop_recorded]
    | succ n =>
      have h : (s.Close w).1 = none := by
        have h0 := hbefore 0 (Nat.succ_pos n)
        rw [closeResponses_cons] at h0
        simpa using h0
      rw [closeLoop_cons_closed s rest none w h]
      refine ih (s.Close w).2 n (by simpa using hk) ?_
      intro i hi
      have h1 := hbefore (i + 1) (Nat.succ_lt_succ hi)
      rw [closeResponses_cons] at h1
      simpa using h1

theorem closeLoop_world {σ : Type} (stores : List (Store σ)) (sErr : Option Error) (w : σ) :
    (closeLoop stores sErr w).world = worldAfter (fun s => s.Close) stores w := by
  induction stores generalizing sErr w with
  | nil => rfl
  | cons s rest ih =>
    cases h : (s.Close w).1 with
    | none => simp [closeLoop_cons_closed s rest sErr w h, ih, worldAfter]
    | some err => simp [closeLoop_cons_failed s rest sErr w err h, ih, worldAfter]

/-- C6: `StoreRouter.Close` calls `Close` on every member once, in list
order, whether or not the `Close` of a member fails: the member calls it makes
are the `Close` calls on the whole store list, and the world it leaves is the
one left by applying the `Close` of every member once, in list order, each on
the world left by the one before. -/
theorem StoreRouter.Close_calls {σ : Type} (r : StoreRouter σ) (w : σ) :
    (r.Close w).calls = r.Stores.map Call.close ∧
    (r.Close w).world = worldAfter (fun s => s.Close) r.Stores w :=
  ⟨closeLoop_calls r.Stores none w, closeLoop_world r.Stores none w⟩

/-- C7: `StoreRouter.Close` returns nil exactly when the `Close` of every
member returns nil; otherwise it returns, unchanged, the error of the first
member in list order whose `Close` failed. -/
theorem StoreRouter.Close_result {σ : Type} (r : StoreRouter σ) (w : σ) :
    ((r.Close w).result = none ↔ ∀ e ∈ closeResponses r.Stores w, e = none) ∧
    (∀ (k : Nat) (err : Error), (closeResponses r.Stores w)[k]? = some (some err) →
      (∀ i : Nat, i < k → (closeResponses r.Stores w)[i]? = some none) →
      (r.Close w).result = some err) :=
  ⟨closeLoop_nil_iff r.Stores w, fun k err hk hb => closeLoop_first_failure r.Stores w k err hk hb⟩

/-! ## String -/

theorem foldl_descriptors {σ : Type} (stores : List (Store σ)) (acc : List String) :
    stores.foldl (fun a s => a ++ [s.String]) acc = acc ++ stores.map (fun s => s.String) := by
  induction stores generalizing acc with
  | nil => simp
  | cons s rest ih => simp [ih]

theorem intercalate_go_eq_foldl (sep : String) (l : List String) (acc : String) :
    String.intercalate.go acc sep l = l.foldl (fun b s => b ++ sep ++ s) acc := by
  induction l generalizing acc with
  | nil => rfl
  | cons a rest ih => simp [String.intercalate.go, ih]

theorem strings_Join_eq_intercalate (l : List String) (sep : String) :
    strings.Join l sep = sep.intercalate l := by
  cases l with
  | nil => rfl
  | cons a rest =>
    cases rest with
    | nil => rfl
    | cons b tl => simp [strings.Join, String.intercalate, intercalate_go_eq_foldl]

/-- C8: `StoreRouter.String` is the descriptors of the members, in list order,
joined by `","`: the empty string for no store, the descriptor alone for one
store, and the two descriptors around a comma for two stores. -/
theorem StoreRouter.String_eq {σ : Type} (r : StoreRouter σ) :
    r.String = ",".intercalate (r.Stores.map (fun s => s.String)) ∧
    (StoreRouter.mk ([] : List (Store σ))).String = "" ∧
    (∀ a : Store σ, (StoreRouter.mk [a]).String = a.String) ∧
    (∀ a b : Store σ, (StoreRouter.mk [a, b]).String = a.String ++ "," ++ b.String) := by
  refine ⟨?_, rfl, fun a => rfl, fun a b => rfl⟩
  unfold StoreRouter.String
  rw [foldl_descriptors, strings_Join_eq_intercalate]
  simp

/-! ## NewStoreRouter -/

theorem foldl_append_singleton {α : Type} (l acc : List α) :
    l.foldl (fun a s => a ++ [s]) acc = acc ++ l := by
  induction l generalizing acc with
  | nil => simp
  | cons s rest ih => simp [ih]

/-- C11: `NewStoreRouter` keeps its arguments: the `Stores` of the router are
the argument list itself, with the same length, the same stores and the same
order, a store passed twice appearing twice. -/
theorem NewStoreRouter_Stores {σ : Type} (stores : List (Store σ)) :
    (NewStoreRouter stores).Stores = stores ∧
    (NewStoreRouter stores).Stores.length = stores.length ∧
    ∀ i : Nat, (NewStoreRouter stores).Stores[i]? = stores[i]? := by
  have h : (NewStoreRouter stores).Stores = stores := by
    unfold NewStoreRouter
    simp [foldl_append_singleton]
  exact ⟨h, by rw [h], fun i => by rw [h]⟩

/-- C12: a router built from no store finds nothing: `GetChunk` returns no
chunk and `ChunkMissing` with the requested id, `HasChunk` returns false, and
`Close` returns nil. -/
theorem NewStoreRouter_empty {σ : Type} (id : ChunkID) (w : σ) :
    ((NewStoreRouter ([] : List (Store σ))).GetChunk id w).result
      = (none, some (Error.ChunkMissing id)) ∧
    ((NewStoreRouter ([] : List (Store σ))).HasChunk id w).result = false ∧
    ((NewStoreRouter ([] : List (Store σ))).Close w).result = none :=
  ⟨rfl, rfl, rfl⟩

/-! ## Routers over a concatenation -/

theorem getChunkLoop_append_of_not_missing {σ : Type} (id : ChunkID)
    (xs ys : List (Store σ)) (w : σ)
    (h : isChunkMissing (getChunkLoop id xs w).result.2 = false) :
    getChunkLoop id (xs ++ ys) w = getChunkLoop id xs w := by
  induction xs generalizing w with
  | nil => simp [getChunkLoop_nil, isChunkMissing] at h
  | cons s rest ih =>
    rw [List.cons_append]
    rcases getChunk_answer_cases (s.GetChunk id w).1.2 with h0 | h0 | ⟨err, h0, hne⟩
    · rw [getChunkLoop_cons_success id s (rest ++ ys) w h0,
        getChunkLoop_cons_success id s rest w h0]
    · rw [getChunkLoop_cons_missing id s rest w h0] at h
      rw [getChunkLoop_cons_missing id s (rest ++ ys) w h0,
        getChunkLoop_cons_missing id s rest w h0, ih _ h]
    · rw [getChunkLoop_cons_failure id s (rest ++ ys) w err h0 hne,
        getChunkLoop_cons_failure id s rest w err h0 hne]

theorem getChunkLoop_append_of_missing {σ : Type} (id : ChunkID)
    (xs ys : List (Store σ)) (w : σ)
    (h : isChunkMissing (getChunkLoop id xs w).result.2 = true) :
    (getChunkLoop id (xs ++ ys) w).result
        = (getChunkLoop id ys (getChunkLoop id xs w).world).result ∧
      (getChunkLoop id (xs ++ ys) w).world
        = (getChunkLoop id ys (getChunkLoop id xs w).world).world := by
  induction xs generalizing w with
  | nil => exact ⟨rfl, rfl⟩
  | cons s rest ih =>
    rw [List.cons_append]
    rcases getChunk_answer_cases (s.GetChunk id w).1.2 with h0 | h0 | ⟨err, h0, hne⟩
    · rw [getChunkLoop_cons_success id s rest w h0] at h
      simp [isChunkMissing] at h
    · rw [getChunkLoop_cons_missing id s rest w h0] at h
      rw [getChunkLoop_cons_missing id s (rest ++ ys) w h0,
        getChunkLoop_cons_missing id s rest w h0]
      exact ih _ h
    · rw [getChunkLoop_cons_failure id s rest w err h0 hne] at h
      simp [isChunkMissing] at h

theorem hasChunkLoop_append {σ : Type} (id : ChunkID) (xs ys : List (Store σ)) (w : σ) :
    (hasChunkLoop id (xs ++ ys) w).result
      = ((hasChunkLoop id xs w).result ||
          (hasChunkLoop id ys (hasChunkLoop id xs w).world).result) := by
  induction xs generalizing w with
  | nil => simp [hasChunkLoop]
  | cons s rest ih =>
    rw [List.cons_append]
    cases h : (s.HasChunk id w).1 with
    | true =>
      simp [hasChunkLoop_cons_true id s (rest ++ ys) w h, hasChunkLoop_cons_true id s rest w h]
    | false =>
      simp [hasChunkLoop_cons_false id s (rest ++ ys) w h,
        hasChunkLoop_cons_false id s rest w h, ih]

/-- C13: over `xs ++ ys`, `GetChunk` is `GetChunk` over `xs` when that returns
a chunk or a wrapped error, and `GetChunk` over `ys` (run on the world left by
`xs`) when `xs` returns `ChunkMissing`; `HasChunk` over `xs ++ ys` is `HasChunk`
over `xs` or `HasChunk` over `ys`. -/
theorem StoreRouter.append_eq {σ : Type} (xs ys : List (Store σ)) (id : ChunkID) (w : σ) :
    (isChunkMissing ((StoreRouter.mk xs).GetChunk id w).result.2 = false →
      (StoreRouter.mk (xs ++ ys)).GetChunk id w = (StoreRouter.mk xs).GetChunk id w) ∧
    (isChunkMissing ((StoreRouter.mk xs).GetChunk id w).result.2 = true →
      ((StoreRouter.mk (xs ++ ys)).GetChunk id w).result
        = ((StoreRouter.mk ys).GetChunk id ((StoreRouter.mk xs).GetChunk id w).world).result) ∧
    ((StoreRouter.mk (xs ++ ys)).HasChunk id w).result
      = (((StoreRouter.mk xs).HasChunk id w).result ||
          ((StoreRouter.mk ys).HasChunk id ((StoreRouter.mk xs).HasChunk id w).world).result) :=
  ⟨fun h => getChunkLoop_append_of_not_missing id xs ys w h,
    fun h => (getChunkLoop_append_of_missing id xs ys w h).1,
    hasChunkLoop_append id xs ys w⟩

/-! ## A router as a member of a router -/

theorem getChunkLoop_result_of_missing {σ : Type} (id : ChunkID) (stores : List (Store σ))
    (w : σ) (h : isChunkMissing (getChunkLoop id stores w).result.2 = true) :
    (getChunkLoop id stores w).result = (none, some (Error.ChunkMissing id)) :=
  getChunkLoop_all_missing id stores w ((getChunkLoop_missing_iff id stores w).mp h)

/-- What a router over the single member `s` returns, by the answer of `s`. -/
theorem getChunkLoop_singleton_result {σ : Type} (id : ChunkID) (s : Store σ) (w : σ) :
    ((s.GetChunk id w).1.2 = none →
      (getChunkLoop id [s] w).result = ((s.GetChunk id w).1.1, none)) ∧
    (isChunkMissing (s.GetChunk id w).1.2 = true →
      (getChunkLoop id [s] w).result = (none, some (Error.ChunkMissing id))) ∧
    (∀ err, (s.GetChunk id w).1.2 = some err → isChunkMissing (some err) = false →
      (getChunkLoop id [s] w).result
        = (none, some (Error.withStack (Error.withMessage err s.String)))) := by
  refine ⟨fun h => ?_, fun h => ?_, fun err h hne => ?_⟩
  · rw [getChunkLoop_cons_success id s [] w h]
  · rw [getChunkLoop_cons_missing id s [] w h]
    rfl
  · rw [getChunkLoop_cons_failure id s [] w err h hne]

/-- C14: a router over the two routers on `xs` and on `ys` answers `GetChunk`
like the router on `xs ++ ys`: the same chunk with a nil error, the same
`ChunkMissing` with the requested id, and on another error the error of the
flat router wrapped once more with the descriptor of the inner router that
failed, so with the same underlying cause. -/
theorem StoreRouter.nested_GetChunk {σ : Type} (xs ys : List (Store σ)) (id : ChunkID)
    (w : σ) :
    (∀ c, ((StoreRouter.mk (xs ++ ys)).GetChunk id w).result = (c, none) →
      ((StoreRouter.mk [(StoreRouter.mk xs).toStore, (StoreRouter.mk ys).toStore]).GetChunk
        id w).result = (c, none)) ∧
    (isChunkMissing ((StoreRouter.mk (xs ++ ys)).GetChunk id w).result.2 = true →
      ((StoreRouter.mk (xs ++ ys)).GetChunk id w).result
        = (none, some (Error.ChunkMissing id)) ∧
      ((StoreRouter.mk [(StoreRouter.mk xs).toStore, (StoreRouter.mk ys).toStore]).GetChunk
        id w).result = (none, some (Error.ChunkMissing id))) ∧
    (∀ e, ((StoreRouter.mk (xs ++ ys)).GetChunk id w).result.2 = some e →
      isChunkMissing (some e) = false →
      ∃ d e2,
        d = (if isChunkMissing ((StoreRouter.mk xs).GetChunk id w).result.2 = true
              then (StoreRouter.mk ys).String else (StoreRouter.mk xs).String) ∧
        ((StoreRouter.mk [(StoreRouter.mk xs).toStore, (StoreRouter.mk ys).toStore]).GetChunk
          id w).result = (none, some e2) ∧
        e2 = Error.withStack (Error.withMessage e d) ∧
        some e2 = errors.Wrap (some e) d ∧
        errors.Cause e2 = errors.Cause e ∧
        ∀ missingText, e2.Error missingText = d ++ ": " ++ e.Error missingText) := by
  unfold StoreRouter.GetChunk
  simp only
  have hX : ((StoreRouter.mk xs).toStore.GetChunk id w)
      = ((getChunkLoop id xs w).result, (getChunkLoop id xs w).world) := rfl
  have hY : ∀ w1, ((StoreRouter.mk ys).toStore.GetChunk id w1)
      = ((getChunkLoop id ys w1).result, (getChunkLoop id ys w1).world) := fun _ => rfl
  have hXs : (StoreRouter.mk xs).toStore.String = (StoreRouter.mk xs).String := rfl
  have hYs : (StoreRouter.mk ys).toStore.String = (StoreRouter.mk ys).String := rfl
  rcases getChunk_answer_cases (getChunkLoop id xs w).result.2 with h0 | h0 | ⟨err, h0, hne⟩
  · -- the router on `xs` returns a chunk
    have hnm : isChunkMissing (getChunkLoop id xs w).result.2 = false := by rw [h0]; rfl
    have hflat := getChunkLoop_append_of_not_missing id xs ys w hnm
    have hnest : (getChunkLoop id [(StoreRouter.mk xs).toStore, (StoreRouter.mk ys).toStore]
        w).result = ((getChunkLoop id xs w).result.1, none) := by
      rw [getChunkLoop_cons_success id _ _ w (by rw [hX]; exact h0), hX]
    rw [hflat, hnest]
    refine ⟨fun c hc => ?_, fun hm => ?_, fun e he => ?_⟩
    · rw [hc]
    · rw [hnm] at hm
      exact absurd hm (by decide)
    · rw [h0] at he
      exact absurd he (by simp)
  · -- the router on `xs` returns `ChunkMissing`
    have hflat := (getChunkLoop_append_of_missing id xs ys w h0).1
    have hnest : (getChunkLoop id [(StoreRouter.mk xs).toStore, (StoreRouter.mk ys).toStore]
        w).result
        = (getChunkLoop id [(StoreRouter.mk ys).toStore] (getChunkLoop id xs w).world).result := by
      rw [getChunkLoop_cons_missing id _ _ w (by rw [hX]; exact h0), hX]
    rw [hflat, hnest]
    obtain ⟨hs1, hs2, hs3⟩ := getChunkLoop_singleton_result id (StoreRouter.mk ys).toStore
      (getChunkLoop id xs w).world
    rw [hY] at hs1 hs2 hs3
    simp only at hs1 hs2 hs3
    refine ⟨fun c hc => ?_, fun hm => ?_, fun e he hne => ?_⟩
    · rw [hs1 (by rw [hc]), hc]
    · exact ⟨getChunkLoop_result_of_missing id ys _ hm, hs2 hm⟩
    · refine ⟨(StoreRouter.mk ys).String,
        Error.withStack (Error.withMessage e (StoreRouter.mk ys).String),
        ?_, ?_, rfl, rfl, rfl, fun _ => rfl⟩
      · rw [if_pos h0]
      · rw [hs3 e he hne, hYs]
  · -- the router on `xs` returns a wrapped error
    have hnm : isChunkMissing (getChunkLoop id xs w).result.2 = false := by rw [h0]; exact hne
    have hflat := getChunkLoop_append_of_not_missing id xs ys w hnm
    have hnest : (getChunkLoop id [(StoreRouter.mk xs).toStore, (StoreRouter.mk ys).toStore]
        w).result
        = (none, some (Error.withStack (Error.withMessage err (StoreRouter.mk xs).String))) := by
      rw [getChunkLoop_cons_failure id _ _ w err (by rw [hX]; exact h0) hne, hXs]
    rw [hflat, hnest]
    refine ⟨fun c hc => ?_, fun hm => ?_, fun e he _ => ?_⟩
    · rw [hc] at h0
      exact absurd h0 (by simp)
    · rw [hnm] at hm
      exact absurd hm (by decide)
    · rw [h0] at he
      have hee : err = e := Option.some.inj he
      subst hee
      refine ⟨(StoreRouter.mk xs).String,
        Error.withStack (Error.withMessage err (StoreRouter.mk xs).String),
        ?_, rfl, rfl, rfl, rfl, fun _ => rfl⟩
      rw [if_neg (by rw [hnm]; decide)]

/-! ## HasChunk against GetChunk -/

/-- When no member answers an error other than `ChunkMissing`, the router
returns a nil error exactly when some member does. -/
theorem getChunkLoop_success_iff {σ : Type} (id : ChunkID) (stores : List (Store σ)) (w : σ)
    (hkind : ∀ a ∈ getChunkResponses id stores w, a.2 = none ∨ isChunkMissing a.2 = true) :
    (getChunkLoop id stores w).result.2 = none ↔
      ∃ a ∈ getChunkResponses id stores w, a.2 = none := by
  induction stores generalizing w with
  | nil => simp [getChunkLoop_nil, getChunkResponses_nil]
  | cons s rest ih =>
    rw [getChunkResponses_cons] at hkind ⊢
    rcases getChunk_answer_cases (s.GetChunk id w).1.2 with h0 | h0 | ⟨err, h0, hne⟩
    · rw [getChunkLoop_cons_success id s rest w h0]
      simp [h0]
    · rw [getChunkLoop_cons_missing id s rest w h0]
      have hnot : (s.GetChunk id w).1.2 ≠ none := by
        intro hn
        rw [hn] at h0
        exact absurd h0 (by decide)
      rw [ih _ (fun a ha => hkind a (List.mem_cons_of_mem _ ha))]
      constructor
      · rintro ⟨a, ha, hn⟩
        exact ⟨a, List.mem_cons_of_mem _ ha, hn⟩
      · rintro ⟨a, ha, hn⟩
        rcases List.mem_cons.mp ha with heq | hmem
        · rw [heq] at hn
          exact absurd hn hnot
        · exact ⟨a, hmem, hn⟩
    · rcases hkind _ (List.mem_cons_self _ _) with hk | hk
      · rw [h0] at hk
        exact absurd hk (by simp)
      · rw [h0, hne] at hk
        exact absurd hk (by decide)

/-- C15: when every member answers `GetChunk` with a nil error or with
`ChunkMissing`, and answers `HasChunk` with true exactly at the positions where
`GetChunk` is answered with a nil error, `StoreRouter.HasChunk` returns true
exactly when `StoreRouter.GetChunk` returns a nil error. -/
theorem StoreRouter.HasChunk_iff_GetChunk {σ : Type} (r : StoreRouter σ) (id : ChunkID)
    (wh wg : σ)
    (hkind : ∀ a ∈ getChunkResponses id r.Stores wg, a.2 = none ∨ isChunkMissing a.2 = true)
    (hcons : ∀ i : Nat, (hasChunkResponses id r.Stores wh)[i]? = some true ↔
      ∃ c, (getChunkResponses id r.Stores wg)[i]? = some (c, none)) :
    (r.HasChunk id wh).result = true ↔ (r.GetChunk id wg).result.2 = none := by
  unfold StoreRouter.HasChunk StoreRouter.GetChunk
  rw [hasChunkLoop_true_iff, getChunkLoop_success_iff id r.Stores wg hkind,
    List.mem_iff_getElem?]
  constructor
  · rintro ⟨i, hi⟩
    obtain ⟨c, hc⟩ := (hcons i).mp hi
    exact ⟨(c, none), List.mem_iff_getElem?.mpr ⟨i, hc⟩, rfl⟩
  · rintro ⟨⟨c, e⟩, ha, hn⟩
    simp only at hn
    subst hn
    obtain ⟨i, hi⟩ := List.mem_iff_getElem?.mp ha
    exact ⟨i, (hcons i).mpr ⟨c, hi⟩⟩

/-- C16: `HasChunk` and `GetChunk` can disagree: over a store that answers
`GetChunk` with an error other than `ChunkMissing` and `HasChunk` with false,
followed by a store that answers `HasChunk` with true, `StoreRouter.HasChunk`
returns true while `StoreRouter.GetChunk` returns no chunk and the wrapped
error of the first store. -/
theorem StoreRouter.HasChunk_GetChunk_disagree {σ : Type} (s1 s2 : Store σ) (id : ChunkID)
    (w : σ) (err : Error)
    (hget : (s1.GetChunk id w).1.2 = some err) (hne : isChunkMissing (some err) = false)
    (hhas1 : (s1.HasChunk id w).1 = false)
    (hhas2 : (s2.HasChunk id (s1.HasChunk id w).2).1 = true) :
    ((StoreRouter.mk [s1, s2]).HasChunk id w).result = true ∧
    ((StoreRouter.mk [s1, s2]).GetChunk id w).result
      = (none, errors.Wrap (some err) s1.String) := by
  unfold StoreRouter.HasChunk StoreRouter.GetChunk
  constructor
  · rw [hasChunkLoop_cons_false id s1 [s2] w hhas1]
    simp only
    rw [hasChunkLoop_cons_true id s2 [] _ hhas2]
  · rw [getChunkLoop_cons_failure id s1 [s2] w err hget hne]
    rfl

/-! ## The theorems at concrete routers -/

theorem StoreRouter.GetChunk_first_success_witness :
    (getChunkResponses idX routerEmptyHasBroken.Stores 0)[1]? = some (some chunkX, none) ∧
    (routerEmptyHasBroken.GetChunk idX 0).result = (some chunkX, none) :=
  ⟨rfl, StoreRouter.GetChunk_first_success routerEmptyHasBroken idX 0 1 (some chunkX)
    (fun i hi => by
      have h0 : i = 0 := by omega
      subst h0
      exact ⟨_, rfl, rfl⟩)
    rfl⟩

theorem StoreRouter.GetChunk_first_failure_witness :
    (getChunkResponses idX routerEmptyBrokenHas.Stores 0)[1]? = some (none, some netErr) ∧
    ∃ e, (routerEmptyBrokenHas.GetChunk idX 0).result = (none, some e) ∧
      some e = errors.Wrap (some netErr) "b" ∧
      e.Cause = some (Error.withMessage netErr "b") ∧
      (Error.withMessage netErr "b").Cause = some netErr ∧
      errors.Cause e = errors.Cause netErr ∧
      (netErr.Cause = none → errors.Cause e = netErr) ∧
      ∀ missingText, e.Error missingText = "b" ++ ": " ++ netErr.Error missingText :=
  ⟨rfl, StoreRouter.GetChunk_first_failure routerEmptyBrokenHas idX 0 1
    (brokenStore "b" netErr) none netErr
    (fun i hi => by
      have h0 : i = 0 := by omega
      subst h0
      exact ⟨_, rfl, rfl⟩)
    rfl rfl rfl⟩

theorem StoreRouter.GetChunk_all_missing_witness :
    getChunkResponses idX routerEmptyStray.Stores 0
      = [(none, some (Error.ChunkMissing idX)), (none, some (Error.ChunkMissing idY))] ∧
    (routerEmptyStray.GetChunk idX 0).result = (none, some (Error.ChunkMissing idX)) :=
  ⟨rfl, StoreRouter.GetChunk_all_missing routerEmptyStray idX 0 (by decide)⟩

theorem StoreRouter.GetChunk_calls_witness :
    (routerEmptyHasBroken.GetChunk idX 0).calls
      = [Call.getChunk (emptyStore "a") idX, Call.getChunk (singleStore "b" idX chunkX) idX] ∧
    (routerLateTwice.GetChunk idX 0).calls
      = [Call.getChunk (lateStore "l" chunkX) idX, Call.getChunk (lateStore "l" chunkX) idX] :=
  ⟨(StoreRouter.GetChunk_calls routerEmptyHasBroken idX 0).trans rfl,
    (StoreRouter.GetChunk_calls routerLateTwice idX 0).trans rfl⟩

theorem StoreRouter.GetChunk_missing_iff_witness :
    isChunkMissing (routerEmptyStray.GetChunk idX 0).result.2 = true ∧
    isChunkMissing (routerEmptyBrokenHas.GetChunk idX 0).result.2 = false :=
  ⟨(StoreRouter.GetChunk_missing_iff routerEmptyStray idX 0).mpr (by decide), rfl⟩

theorem StoreRouter.HasChunk_iff_witness :
    (routerEmptyBrokenHas.HasChunk idX 0).result = true ∧
    (routerEmptyBrokenHas.HasChunk idY 0).result = false :=
  ⟨(StoreRouter.HasChunk_iff routerEmptyBrokenHas idX 0).1.mpr ⟨true, by decide, rfl⟩,
    (StoreRouter.HasChunk_iff routerEmptyBrokenHas idY 0).2.mpr (by decide)⟩

theorem StoreRouter.HasChunk_calls_witness :
    (routerEmptyHasBroken.HasChunk idX 0).calls
      = [Call.hasChunk (emptyStore "a") idX, Call.hasChunk (singleStore "b" idX chunkX) idX] :=
  (StoreRouter.HasChunk_calls routerEmptyHasBroken idX 0).trans rfl

theorem StoreRouter.Close_calls_witness :
    closeResponses routerNamed.Stores [] = [none, some netErr, none] ∧
    (routerNamed.Close []).calls
      = [Call.close (namedStore "A" none), Call.close (namedStore "B" (some netErr)),
          Call.close (namedStore "C" none)] ∧
    (routerNamed.Close []).world = ["A", "B", "C"] :=
  ⟨rfl, (StoreRouter.Close_calls routerNamed []).1.trans rfl,
    (StoreRouter.Close_calls routerNamed []).2.trans rfl⟩

theorem StoreRouter.Close_result_witness :
    closeResponses routerEmptyBrokenBroken.Stores 0
      = [none, some netErr, some (Error.other "disk full")] ∧
    (routerEmptyBrokenBroken.Close 0).result = some netErr ∧
    (routerEmptyStray.Close 0).result = none :=
  ⟨rfl,
    (StoreRouter.Close_result routerEmptyBrokenBroken 0).2 1 netErr rfl
      (fun i hi => by
        have h0 : i = 0 := by omega
        subst h0
        rfl),
    (StoreRouter.Close_result routerEmptyStray 0).1.mpr (by decide)⟩

theorem StoreRouter.String_eq_witness :
    routerEmptyBrokenBroken.String = "a,b,c" :=
  (StoreRouter.String_eq routerEmptyBrokenBroken).1.trans (by decide)

theorem NewStoreRouter_Stores_witness :
    (NewStoreRouter [emptyStore "a", emptyStore "a", brokenStore "b" netErr]).Stores
      = [emptyStore "a", emptyStore "a", brokenStore "b" netErr] ∧
    (NewStoreRouter ([] : List (Store Nat))).Stores = [] :=
  ⟨(NewStoreRouter_Stores [emptyStore "a", emptyStore "a", brokenStore "b" netErr]).1,
    (NewStoreRouter_Stores ([] : List (Store Nat))).1⟩

theorem NewStoreRouter_empty_witness :
    ((NewStoreRouter ([] : List (Store Nat))).GetChunk idX 0).result
      = (none, some (Error.ChunkMissing idX)) :=
  (NewStoreRouter_empty idX (0 : Nat)).1

theorem StoreRouter.append_eq_witness :
    ((StoreRouter.mk ([emptyStore "a"] ++ [singleStore "b" idX chunkX])).GetChunk idX 0).result
      = (some chunkX, none) ∧
    (StoreRouter.mk ([brokenStore "a" netErr] ++ [singleStore "b" idX chunkX])).GetChunk idX 0
      = (StoreRouter.mk [brokenStore "a" netErr]).GetChunk idX 0 :=
  ⟨((StoreRouter.append_eq [emptyStore "a"] [singleStore "b" idX chunkX] idX 0).2.1 rfl).trans
      rfl,
    (StoreRouter.append_eq [brokenStore "a" netErr] [singleStore "b" idX chunkX] idX 0).1 rfl⟩

theorem StoreRouter.nested_GetChunk_witness :
    ((StoreRouter.mk ([emptyStore "a"] ++ [emptyStore "b", brokenStore "c" netErr])).GetChunk
      idX 0).result = (none, some (Error.withStack (Error.withMessage netErr "c"))) ∧
    ∃ d e2, d = "b,c" ∧
      ((StoreRouter.mk [(StoreRouter.mk [emptyStore "a"]).toStore,
        (StoreRouter.mk [emptyStore "b", brokenStore "c" netErr]).toStore]).GetChunk
          idX 0).result = (none, some e2) ∧
      e2 = Error.withStack
        (Error.withMessage (Error.withStack (Error.withMessage netErr "c")) d) ∧
      some e2 = errors.Wrap (some (Error.withStack (Error.withMessage netErr "c"))) d ∧
      errors.Cause e2 = errors.Cause (Error.withStack (Error.withMessage netErr "c")) ∧
      ∀ missingText,
        e2.Error missingText
          = d ++ ": " ++ (Error.withStack (Error.withMessage netErr "c")).Error missingText :=
  ⟨rfl,
    (StoreRouter.nested_GetChunk [emptyStore "a"] [emptyStore "b", brokenStore "c" netErr]
      idX 0).2.2 (Error.withStack (Error.withMessage netErr "c")) rfl rfl⟩

theorem StoreRouter.HasChunk_iff_GetChunk_witness :
    hasChunkResponses idX routerEmptyHas.Stores 0 = [false, true] ∧
    getChunkResponses idX routerEmptyHas.Stores 5
      = [(none, some (Error.ChunkMissing idX)), (some chunkX, none)] ∧
    ((routerEmptyHas.HasChunk idX 0).result = true ↔
      (routerEmptyHas.GetChunk idX 5).result.2 = none) :=
  ⟨rfl, rfl,
    StoreRouter.HasChunk_iff_GetChunk routerEmptyHas idX 0 5 (by decide)
      (fun i => by
        have hh : hasChunkResponses idX routerEmptyHas.Stores 0 = [false, true] := rfl
        have hg : getChunkResponses idX routerEmptyHas.Stores 5
            = [(none, some (Error.ChunkMissing idX)), (some chunkX, none)] := rfl
        rw [hh, hg]
        rcases i with _ | _ | i
        · simp
        · simp
        · simp)⟩

theorem StoreRouter.HasChunk_GetChunk_disagree_witness :
    (routerBrokenHas.HasChunk idX 0).result = true ∧
    (routerBrokenHas.GetChunk idX 0).result
      = (none, some (Error.withStack (Error.withMessage netErr "a"))) :=
  StoreRouter.HasChunk_GetChunk_disagree (brokenStore "a" netErr) (singleStore "b" idX chunkX)
    idX 0 netErr rfl rfl rfl rfl
